import Mathlib

/-!
Verification of the `crelay-ivr-replacement` IVR exploration orchestrator.

This file gives a shallow embedding, in Lean, of the repository's core
components and proves the specified properties about them:

* the path planner `generateNextPath` (server/src/tools/read_legs.ts);
* the step-ledger read tool `read_legs` (server/src/tools/read_legs.ts);
* the leg-ledger write tool `write_legs` (server/src/tools/write_legs.ts);
* the job orchestrator `IvrMappingService`
  (server/src/services/IvrMappingService.ts): job status lifecycle,
  `startMapping` validation, `cancelJob`, `notifyCallComplete`, the
  per-iteration call-completion promise with its 5-minute timeout, and the
  workflow's catch-all error capture.

Modelling conventions:

* JavaScript arrays become `List`; `Array.prototype.sort` with a numeric or
  `localeCompare` comparator is a stable ascending sort and is modelled by
  `List.insertionSort` (stable, and the output of any two stable sorts under
  the same total preorder coincides) under the corresponding order;
  `localeCompare` is modelled as lexicographic `String` order.
* `undefined`/missing object fields become `Option`; JavaScript truthiness
  tests (`!x`) on strings and numbers are modelled by `truthyStr`/`truthyNum`
  (`""`, `0` and absence are falsy).
* `fs.readFile` + `JSON.parse` of the ledger file is modelled by a `Stored`
  state: the file is `missing`, `corrupt` (unparseable), or `ok` with a
  parsed array.  Both failure cases are handled by one `catch` in the source,
  and so are handled uniformly here.
* Exceptions become `Except`/early-return values; a Lean function that is
  total by construction models a JavaScript function that cannot throw.
* Wall-clock timestamps (`new Date()`) are passed in as explicit parameters
  where their value matters and are omitted where no property depends on
  them (`createdAt`/`updatedAt`/`expiresAt` metadata).
* The promise pair `callCompletionResolve`/`callCompletionReject` is always
  set and cleared together in the source, so it is modelled by a single
  `pending : Bool` flag plus a `resolution : Option PromiseRes` recording
  how the promise settled (a promise settles at most once; every source
  path guards on the stored callback being present before settling).
-/

/-! ### Path planner (server/src/tools/read_legs.ts, generateNextPath) -/

/-- The nine candidate digits `1..9` scanned by each loop level. -/
def plannerDigits : List Nat := [1, 2, 3, 4, 5, 6, 7, 8, 9]

/-- Single-digit candidate paths `"1" .. "9"` in loop order. -/
def onePaths : List String := plannerDigits.map (fun i => toString i)

/-- Two-digit candidate paths `"1-1" .. "9-9"` in nested loop order. -/
def twoPaths : List String :=
  plannerDigits.flatMap (fun a =>
    plannerDigits.map (fun b => toString a ++ "-" ++ toString b))

/-- Three-digit candidate paths `"1-1-1" .. "9-9-9"` in nested loop order. -/
def threePaths : List String :=
  plannerDigits.flatMap (fun a =>
    plannerDigits.flatMap (fun b =>
      plannerDigits.map (fun c =>
        toString a ++ "-" ++ toString b ++ "-" ++ toString c)))

/-- `generateNextPath` from `server/src/tools/read_legs.ts`.  The source's
`for` loops with early `return` are modelled by `List.find?` over the
candidate lists in the same order. -/
def generateNextPath (completedPaths : List String) : String :=
  if completedPaths.length = 0 then "root"
  else if !(completedPaths.contains "root") then "root"
  else
    match onePaths.find? (fun p => !(completedPaths.contains p)) with
    | some p => p
    | none =>
      match twoPaths.find? (fun p => !(completedPaths.contains p)) with
      | some p => p
      | none =>
        match threePaths.find? (fun p => !(completedPaths.contains p)) with
        | some p => p
        | none => "1-1-1-1"

/-- Spec-side definition of the planner, following the words of spec §4.2:
return the root sentinel when the set is empty or lacks the root; otherwise
the first path, in the flat canonical order (all depth-1 paths, then all
depth-2 paths, then all depth-3 paths, each depth ascending), that is not in
the set; and the fixed fallback `"1-1-1-1"` when all are present. -/
def specNextPath (completedPaths : List String) : String :=
  if completedPaths = [] ∨ "root" ∉ completedPaths then "root"
  else
    (((onePaths ++ twoPaths ++ threePaths).filter
        (fun p => decide (p ∉ completedPaths))).headD "1-1-1-1")

/-! ### Step-ledger read tool (server/src/tools/read_legs.ts) -/

/-- Documentation status of an individual step or leg. -/
inductive StepStatus
  | COMPLETED
  | IN_PROGRESS
  | FAILED
deriving DecidableEq

/-- `MenuStepData` from `read_legs.ts`: one documented menu location. -/
structure MenuStepData where
  menuPath : String
  timestamp : String
  audioTranscript : String
  availableOptions : List String
  dtmfSent : Option String
  outcome : String
  status : StepStatus
deriving DecidableEq

/-- The `filterStatus` argument's value space. -/
inductive FilterStatus
  | COMPLETED
  | IN_PROGRESS
  | FAILED
  | ALL
deriving DecidableEq

/-- `leg.status === filterStatus` for a non-`ALL` filter value. -/
def FilterStatus.matchesStatus : FilterStatus → StepStatus → Bool
  | .COMPLETED, .COMPLETED => true
  | .IN_PROGRESS, .IN_PROGRESS => true
  | .FAILED, .FAILED => true
  | _, _ => false

/-- Arguments of the read tool.  `none` models an absent field. -/
structure ReadLegsArguments where
  filterStatus : Option FilterStatus
  targetPath : Option String
  inMemoryData : Option (List MenuStepData)
deriving DecidableEq

/-- Response object of the read tool.  The analysis fields are `Option`
because the catch-all error response omits them. -/
structure ReadLegsResponse where
  success : Bool
  message : String
  totalSteps : Nat
  steps : List MenuStepData
  completedPaths : Option (List String)
  nextSuggestedPath : Option String
deriving DecidableEq

/-- State of a persisted JSON ledger file: missing, unparseable, or parsed. -/
inductive Stored (α : Type)
  | missing
  | corrupt
  | ok (data : α)
deriving DecidableEq

/-- JavaScript truthiness of an optional string (`undefined` and `""` are
falsy). -/
def truthyStr : Option String → Bool
  | none => false
  | some s => !(s == "")

/-- Lexicographic (code-point) comparison of character lists: `charsLe a b`
holds when `a` is not strictly greater than `b`. -/
def charsLe : List Char → List Char → Bool
  | [], _ => true
  | _ :: _, [] => false
  | a :: as, b :: bs => if a = b then charsLe as bs else decide (a < b)

/-- The ascending sort order `(a, b) => a.menuPath.localeCompare(b.menuPath)`,
with `localeCompare` modelled as lexicographic order on strings. -/
def stepLE (a b : MenuStepData) : Prop :=
  charsLe a.menuPath.data b.menuPath.data = true

instance : DecidableRel stepLE :=
  fun a b => inferInstanceAs (Decidable (charsLe a.menuPath.data b.menuPath.data = true))

/-- The fresh-session early return of `read_legs.ts` (missing/corrupt file). -/
def freshResponse : ReadLegsResponse :=
  { success := true
    message := "No exploration data found. This appears to be a fresh exploration session."
    totalSteps := 0
    steps := []
    completedPaths := some []
    nextSuggestedPath := some "root" }

/-- The status-filter stage: `filteredSteps = allSteps` when the filter is
`ALL`, otherwise a fresh filtered array. -/
def statusFiltered (fs : FilterStatus) (allSteps : List MenuStepData) : List MenuStepData :=
  if fs = FilterStatus.ALL then allSteps
  else allSteps.filter (fun st => fs.matchesStatus st.status)

/-- The target-path filter stage (applied only when `targetPath` is truthy). -/
def pathFiltered (targetPath : Option String) (l : List MenuStepData) : List MenuStepData :=
  if truthyStr targetPath then l.filter (fun st => st.menuPath == targetPath.getD "")
  else l

/-- The `filteredSteps` array after both filters and the in-place sort. -/
def sortedFiltered (fs : FilterStatus) (targetPath : Option String)
    (allSteps : List MenuStepData) : List MenuStepData :=
  (pathFiltered targetPath (statusFiltered fs allSteps)).insertionSort stepLE

/-- The `allSteps` array at the time the analysis fields are computed.
Constraint from the source that the types cannot show: when the filter is
`ALL` and no `targetPath` is given, `filteredSteps` is the *same array
object* as `allSteps`, so the in-place `filteredSteps.sort(...)` has already
reordered `allSteps` before `completedPaths` and the in-progress scan read
it; with any filter applied, `Array.prototype.filter` returned a fresh array
and `allSteps` still has its original order. -/
def allStepsAtAnalysis (fs : FilterStatus) (targetPath : Option String)
    (allSteps : List MenuStepData) : List MenuStepData :=
  if fs = FilterStatus.ALL ∧ ¬ truthyStr targetPath then sortedFiltered fs targetPath allSteps
  else allSteps

/-- `completedPaths` analysis: paths of all COMPLETED entries. -/
def completedPathsOf (l : List MenuStepData) : List String :=
  (l.filter (fun st => st.status == StepStatus.COMPLETED)).map MenuStepData.menuPath

/-- `nextSuggestedPath` analysis: an IN_PROGRESS entry's own path if one
exists, otherwise the planner applied to the completed paths. -/
def nextSuggestedOf (l : List MenuStepData) : String :=
  match l.find? (fun st => st.status == StepStatus.IN_PROGRESS) with
  | some st => st.menuPath
  | none => generateNextPath (completedPathsOf l)

/-- Body of `read_legs.ts` once an `allSteps` array is in hand. -/
def readLegsCore (fs : FilterStatus) (targetPath : Option String)
    (allSteps : List MenuStepData) : ReadLegsResponse :=
  let sorted := sortedFiltered fs targetPath allSteps
  let analyzed := allStepsAtAnalysis fs targetPath allSteps
  let completed := completedPathsOf analyzed
  { success := true
    message := "Successfully loaded " ++ toString sorted.length ++ " menu steps ("
      ++ toString completed.length ++ " completed paths)"
    totalSteps := sorted.length
    steps := sorted
    completedPaths := some completed
    nextSuggestedPath := some (nextSuggestedOf analyzed) }

/-- The read tool's default export: prefer `inMemoryData`, otherwise read the
ledger file, returning the fresh-session response when it is missing or
corrupt. -/
def read_legs (args : ReadLegsArguments) (file : Stored (List MenuStepData)) :
    ReadLegsResponse :=
  let fs := args.filterStatus.getD FilterStatus.ALL
  match args.inMemoryData with
  | some data => readLegsCore fs args.targetPath data
  | none =>
    match file with
    | Stored.ok allSteps => readLegsCore fs args.targetPath allSteps
    | _ => freshResponse

/-! ### Leg-ledger write tool (server/src/tools/write_legs.ts) -/

/-- One menu in a leg's `menuSequence`. -/
structure MenuInfo where
  menuId : String
  audioTranscript : String
  availableOptions : List String
deriving DecidableEq

/-- `LegData` from `write_legs.ts`: one persisted exploration leg. -/
structure LegData where
  legNumber : Int
  path : String
  explorationDate : String
  menuSequence : List MenuInfo
  finalOutcome : String
  status : StepStatus
  nextTarget : Option String
deriving DecidableEq

/-- Arguments of the write tool.  `none` models an absent field. -/
structure WriteLegsArguments where
  legNumber : Option Int
  path : Option String
  menuSequence : Option (List MenuInfo)
  finalOutcome : Option String
  status : Option StepStatus
  nextTarget : Option String
deriving DecidableEq

/-- Response object of the write tool. -/
structure WriteLegsResponse where
  success : Bool
  message : String
  legNumber : Int
  filePath : Option String
deriving DecidableEq

/-- JavaScript truthiness of an optional number (`undefined` and `0` are
falsy). -/
def truthyNum : Option Int → Bool
  | none => false
  | some n => !(n == 0)

/-- The ascending stable sort order `(a, b) => a.legNumber - b.legNumber`. -/
def legLE (a b : LegData) : Prop := a.legNumber ≤ b.legNumber

instance : DecidableRel legLE :=
  fun a b => inferInstanceAs (Decidable (a.legNumber ≤ b.legNumber))

instance : IsTotal LegData legLE := ⟨fun a b => Int.le_total a.legNumber b.legNumber⟩

instance : IsTrans LegData legLE := ⟨fun _ _ _ h1 h2 => Int.le_trans h1 h2⟩

/-- `Array.prototype.findIndex`, returning `none` for `-1`. -/
def findIndex (p : α → Bool) : List α → Option Nat
  | [] => none
  | a :: l => if p a then some 0 else (findIndex p l).map (· + 1)

/-- The upsert-and-resort core of `write_legs.ts` (lines 293-307): overwrite
the first entry with the same `legNumber` if one exists, otherwise append,
then stable-sort by `legNumber`. -/
def upsertLeg (existingData : List LegData) (legData : LegData) : List LegData :=
  match findIndex (fun leg => leg.legNumber == legData.legNumber) existingData with
  | some i => (existingData.set i legData).insertionSort legLE
  | none => (existingData ++ [legData]).insertionSort legLE

/-- Path of the write tool's ledger file (`assets/legs/exploration_legs.json`
under the process working directory). -/
def legsFilePath : String := "assets/legs/exploration_legs.json"

/-- The catch-all error response of `write_legs.ts`
(`functionArguments.legNumber || 0` supplies the echoed leg number). -/
def writeLegsErrorResponse (args : WriteLegsArguments) (msg : String) : WriteLegsResponse :=
  { success := false
    message := "Failed to document exploration leg: " ++ msg
    legNumber := if truthyNum args.legNumber then args.legNumber.getD 0 else 0
    filePath := none }

/-- The write tool's default export.  `file` is the persisted ledger state
before the call, `now` the `new Date().toISOString()` reading used for
`explorationDate`; the returned pair is the response plus the ledger state
after the call.  Validation errors are thrown before any file access, so
they leave the ledger state unchanged; a missing or unparseable file is
replaced by the empty array (lines 283-291). -/
def write_legs (args : WriteLegsArguments) (file : Stored (List LegData))
    (now : String) : WriteLegsResponse × Stored (List LegData) :=
  if !(truthyNum args.legNumber) then
    (writeLegsErrorResponse args "legNumber parameter is required", file)
  else if !(truthyStr args.path) then
    (writeLegsErrorResponse args "path parameter is required", file)
  else if args.menuSequence.isNone then
    (writeLegsErrorResponse args "menuSequence parameter is required and must be an array", file)
  else if !(truthyStr args.finalOutcome) then
    (writeLegsErrorResponse args "finalOutcome parameter is required", file)
  else if args.status.isNone then
    (writeLegsErrorResponse args "status parameter is required", file)
  else
    let legData : LegData :=
      { legNumber := args.legNumber.getD 0
        path := args.path.getD ""
        explorationDate := now
        menuSequence := args.menuSequence.getD []
        finalOutcome := args.finalOutcome.getD ""
        status := args.status.getD StepStatus.COMPLETED
        nextTarget := args.nextTarget }
    let existingData : List LegData :=
      match file with
      | Stored.ok legs => legs
      | _ => []
    let newData := upsertLeg existingData legData
    ({ success := true
       message := "Successfully documented exploration leg #" ++ toString legData.legNumber
         ++ " with path " ++ legData.path
       legNumber := legData.legNumber
       filePath := some legsFilePath },
     Stored.ok newData)

/-! ### Job orchestrator (server/src/services/IvrMappingService.ts) -/

/-- `JobStatus` from the service interface. -/
inductive JobStatusV
  | pending
  | inProgress
  | completed
  | failed
  | cancelled
deriving DecidableEq

/-- The terminal statuses tested by `cancelJob` (line 481). -/
def JobStatusV.isTerminal : JobStatusV → Bool
  | .completed => true
  | .failed => true
  | .cancelled => true
  | _ => false

/-- How the per-iteration call-completion promise settled: fulfilled by
`notifyCallComplete`, or rejected with the given error message. -/
inductive PromiseRes
  | fulfilled
  | rejected (msg : String)
deriving DecidableEq

/-- An IVR mapping request (`phoneNumber` is a string in the source; `none`
models an absent field). -/
structure IvrRequest where
  phoneNumber : Option String
  callbackUrl : Option String
deriving DecidableEq

/-- Log levels of the `logOut`/`logError` helpers. -/
inductive LogLevel
  | info
  | error
deriving DecidableEq

/-- Observable per-job state of `IvrMappingService`.  `pending` models the
presence of the stored `callCompletionResolve`/`callCompletionReject` pair
(always set and cleared together in the source); `resolution` records how
the outstanding promise settled; `hasResult` models presence of `result`.
`Date` metadata fields carry no verified property and are omitted. -/
structure SvcState where
  status : JobStatusV
  error : Option String
  hasResult : Bool
  request : Option IvrRequest
  pending : Bool
  resolution : Option PromiseRes
deriving DecidableEq

/-- `updateJobStatus` (lines 792-795). -/
def updateJobStatus (s : SvcState) (status : JobStatusV) : SvcState :=
  { s with status := status }

/-- `updateJobResult` (lines 800-804): unconditionally marks the job
completed with a result. -/
def updateJobResult (s : SvcState) : SvcState :=
  { s with status := JobStatusV.completed, hasResult := true }

/-- `updateJobError` (lines 809-813): unconditionally marks the job failed
with the captured message. -/
def updateJobError (s : SvcState) (msg : String) : SvcState :=
  { s with status := JobStatusV.failed, error := some msg }

/-- `cancelJob` (lines 480-501): a no-op returning `false` on a terminal
job; otherwise sets `cancelled` and, if a completion handle is outstanding,
rejects it with the cancellation error and clears the stored callbacks. -/
def cancelJob (s : SvcState) : SvcState × Bool :=
  if s.status.isTerminal then (s, false)
  else
    let s1 := { s with status := JobStatusV.cancelled }
    if s1.pending then
      ({ s1 with pending := false,
                 resolution := some (PromiseRes.rejected "Job cancelled by user") }, true)
    else (s1, true)

/-- The armed 5-minute timeout firing (lines 573-579): rejects the promise
with the timeout error if the callbacks are still stored, else does nothing. -/
def timeoutFire (s : SvcState) : SvcState :=
  if s.pending then
    { s with pending := false,
             resolution := some (PromiseRes.rejected "Call completion timeout") }
  else s

/-- `notifyCallComplete` (lines 818-825): logs one info line, then fulfills
the outstanding promise if the resolve callback is stored, else does nothing
further.  The second component is the log output of the call. -/
def notifyCallComplete (s : SvcState) : SvcState × List LogLevel :=
  (if s.pending then
    { s with pending := false, resolution := some PromiseRes.fulfilled }
  else s, [LogLevel.info])

/-- `startMapping` (lines 421-446): validate `phoneNumber` (JavaScript
truthiness), throwing synchronously when it is missing; on success store the
request, emit the `job_created` webhook and start `processMapping` without
awaiting it.  The effects pair records the webhook events emitted and
whether the asynchronous workflow was started. -/
def startMapping (s : SvcState) (request : IvrRequest) :
    Except String (SvcState × List String × Bool) :=
  if !(truthyStr request.phoneNumber) then Except.error "phoneNumber is required"
  else Except.ok ({ s with request := some request }, ["job_created"], true)

/-- The awaiting iteration of `processMapping` resuming after the completion
promise settles (line 594): a rejection propagates to the catch block at
lines 632-638, which calls `updateJobError` with the error's message; a
fulfillment lets the workflow continue (modelled elsewhere); an unsettled
promise keeps the iteration suspended. -/
def resumeAwait (s : SvcState) : SvcState :=
  match s.resolution with
  | some (PromiseRes.rejected msg) => updateJobError s msg
  | _ => s

/-- External events that can settle an outstanding completion handle. -/
inductive HandleEvent
  | notify
  | timeout
  | cancel
deriving DecidableEq

/-- Apply one external event to the service state. -/
def applyEvent (s : SvcState) : HandleEvent → SvcState
  | HandleEvent.notify => (notifyCallComplete s).1
  | HandleEvent.timeout => timeoutFire s
  | HandleEvent.cancel => (cancelJob s).1

/-- Apply a sequence of external events in order. -/
def runEvents (s : SvcState) (es : List HandleEvent) : SvcState :=
  es.foldl applyEvent s

/-- The service state of an iteration awaiting its completion promise: job
in progress, completion callbacks stored, promise unsettled. -/
def awaitingState : SvcState :=
  { status := JobStatusV.inProgress
    error := none
    hasResult := false
    request := none
    pending := true
    resolution := none }

/-! ### Helper lemmas -/

/-- `find?` returns the head of the filtered list. -/
theorem find?_eq_head?_filter (p : α → Bool) (l : List α) :
    l.find? p = (l.filter p).head? := by
  induction l with
  | nil => rfl
  | cons a t ih =>
    by_cases h : p a
    · rw [List.find?_cons_of_pos _ h, List.filter_cons_of_pos h]
      rfl
    · rw [List.find?_cons_of_neg _ h, List.filter_cons_of_neg h]
      exact ih

/-- `List.contains` agrees with membership for strings. -/
theorem contains_eq_decide_mem (ps : List String) (p : String) :
    ps.contains p = decide (p ∈ ps) := by
  by_cases h : p ∈ ps <;> simp [h]

/-- Events arriving after the completion callbacks are cleared change neither
the promise's settlement nor the cleared callbacks. -/
theorem applyEvent_preserves_settled (s : SvcState) (h : s.pending = false)
    (e : HandleEvent) :
    (applyEvent s e).resolution = s.resolution ∧ (applyEvent s e).pending = false := by
  cases e with
  | notify => simp [applyEvent, notifyCallComplete, h]
  | timeout => simp [applyEvent, timeoutFire, h]
  | cancel =>
    simp only [applyEvent, cancelJob]
    split
    · exact ⟨rfl, h⟩
    · simp [h]

/-- A whole sequence of post-settlement events leaves the settlement fixed. -/
theorem runEvents_preserves_settled (s : SvcState) (h : s.pending = false)
    (es : List HandleEvent) :
    (runEvents s es).resolution = s.resolution := by
  induction es generalizing s with
  | nil => rfl
  | cons e es ih =>
    have h1 := applyEvent_preserves_settled s h e
    show (runEvents (applyEvent s e) es).resolution = s.resolution
    rw [ih (applyEvent s e) h1.2, h1.1]

/-! ### Claim theorems: orchestrator lifecycle -/

/-- C1: the claim states that once `status` reaches a terminal value no
further status transition is observable.  The code violates this: from an
iteration awaiting its completion promise, `cancelJob` sets the terminal
status `cancelled` and rejects the promise, but the rejection then reaches
`processMapping`'s catch block, whose unconditional `updateJobError`
transitions the terminal `cancelled` job to `failed`.  This theorem
evaluates the embedded code on that failing trace. -/
theorem cancelled_status_overwritten_by_error_capture :
    (cancelJob awaitingState).1.status = JobStatusV.cancelled ∧
    JobStatusV.isTerminal (cancelJob awaitingState).1.status = true ∧
    (resumeAwait (cancelJob awaitingState).1).status = JobStatusV.failed := by
  decide

/-- C2: the claim states that invoking `cancel()` while an iteration awaits
an outstanding completion handle leaves the job `cancelled`, not `failed`.
The code violates this: the cancellation rejection is caught by
`processMapping`'s catch block, which calls `updateJobError`, so the final
observable status is `failed`.  This theorem evaluates the embedded code on
that failing trace. -/
theorem cancel_during_await_ends_failed_not_cancelled :
    (cancelJob awaitingState).1.resolution
      = some (PromiseRes.rejected "Job cancelled by user") ∧
    (resumeAwait (cancelJob awaitingState).1).status = JobStatusV.failed ∧
    (resumeAwait (cancelJob awaitingState).1).status ≠ JobStatusV.cancelled := by
  decide

/-- C6: `notifyCallComplete` with no outstanding completion handle is a safe
no-op: it does not throw (the model is total), logs only at info level, and
leaves the whole job state — in particular `status`, `result` and `error` —
unchanged. -/
theorem notifyCallComplete_noop_without_handle (s : SvcState)
    (h : s.pending = false) :
    notifyCallComplete s = (s, [LogLevel.info]) ∧
    (notifyCallComplete s).1.status = s.status ∧
    (notifyCallComplete s).1.hasResult = s.hasResult ∧
    (notifyCallComplete s).1.error = s.error ∧
    LogLevel.error ∉ (notifyCallComplete s).2 := by
  simp [notifyCallComplete, h]

/-- Witness for C6 at a concrete state (a job whose handle was already
resolved by the timeout and which has since completed). -/
theorem notifyCallComplete_noop_without_handle_witness :
    notifyCallComplete
        { status := JobStatusV.completed, error := none, hasResult := true,
          request := none, pending := false,
          resolution := some (PromiseRes.rejected "Call completion timeout") }
      = ({ status := JobStatusV.completed, error := none, hasResult := true,
           request := none, pending := false,
           resolution := some (PromiseRes.rejected "Call completion timeout") },
         [LogLevel.info]) :=
  (notifyCallComplete_noop_without_handle _ rfl).1

/-- C7: for a handle outstanding in an awaiting iteration, each of the three
resolutions — fulfillment by `notifyCallComplete`, timeout rejection,
cancellation rejection — settles the promise accordingly and clears the
callbacks; in particular cancellation yields the cancellation error and not
the timeout error; and after the first settling event every further event
sequence leaves the settlement unchanged (the other paths are no-ops). -/
theorem completionHandle_exactly_one_resolution (s : SvcState)
    (hp : s.pending = true) (_hr : s.resolution = none)
    (hs : s.status = JobStatusV.inProgress) :
    ((applyEvent s HandleEvent.notify).resolution = some PromiseRes.fulfilled
      ∧ (applyEvent s HandleEvent.notify).pending = false) ∧
    ((applyEvent s HandleEvent.timeout).resolution
        = some (PromiseRes.rejected "Call completion timeout")
      ∧ (applyEvent s HandleEvent.timeout).pending = false) ∧
    ((applyEvent s HandleEvent.cancel).resolution
        = some (PromiseRes.rejected "Job cancelled by user")
      ∧ (applyEvent s HandleEvent.cancel).pending = false
      ∧ (applyEvent s HandleEvent.cancel).resolution
          ≠ some (PromiseRes.rejected "Call completion timeout")) ∧
    (∀ (e : HandleEvent) (es : List HandleEvent),
      (runEvents (applyEvent s e) es).resolution = (applyEvent s e).resolution) := by
  have hterm : s.status.isTerminal = false := by rw [hs]; rfl
  refine ⟨?_, ?_, ?_, ?_⟩
  · constructor <;> simp [applyEvent, notifyCallComplete, hp]
  · constructor <;> simp [applyEvent, timeoutFire, hp]
  · refine ⟨?_, ?_, ?_⟩ <;> simp [applyEvent, cancelJob, hterm, hp]
  · intro e es
    apply runEvents_preserves_settled
    cases e with
    | notify => simp [applyEvent, notifyCallComplete, hp]
    | timeout => simp [applyEvent, timeoutFire, hp]
    | cancel => simp [applyEvent, cancelJob, hterm, hp]

/-- Witness for C7 at the concrete awaiting state. -/
theorem completionHandle_exactly_one_resolution_witness :
    (applyEvent awaitingState HandleEvent.cancel).resolution
        = some (PromiseRes.rejected "Job cancelled by user") ∧
    (runEvents (applyEvent awaitingState HandleEvent.cancel)
        [HandleEvent.timeout, HandleEvent.notify]).resolution
      = (applyEvent awaitingState HandleEvent.cancel).resolution := by
  have h := completionHandle_exactly_one_resolution awaitingState rfl rfl rfl
  exact ⟨h.2.2.1.1, h.2.2.2 HandleEvent.cancel [HandleEvent.timeout, HandleEvent.notify]⟩

/-- C8: `startMapping` validates `phoneNumber` synchronously: when it is
absent it throws the validation error before anything else happens — no
webhook is emitted, the asynchronous workflow is not started and no state is
committed (the `Except.error` return carries no effects). -/
theorem startMapping_requires_phoneNumber (s : SvcState) (request : IvrRequest)
    (h : truthyStr request.phoneNumber = false) :
    startMapping s request = Except.error "phoneNumber is required" := by
  simp [startMapping, h]

/-- Witness for C8: submitting with a missing phone number fails. -/
theorem startMapping_requires_phoneNumber_witness :
    startMapping
        { status := JobStatusV.pending, error := none, hasResult := false,
          request := none, pending := false, resolution := none }
        { phoneNumber := none, callbackUrl := none }
      = Except.error "phoneNumber is required" :=
  startMapping_requires_phoneNumber _ _ rfl

/-! ### Claim theorems: ledger tools -/

/-- C5: the read tool never fails on bad storage: for every argument object
that does not carry in-memory data, a missing and a corrupt ledger file both
produce the same successful fresh-session response with an empty steps list
(the embedding is total, modelling that no exception reaches the caller). -/
theorem read_legs_missing_or_corrupt_is_fresh (args : ReadLegsArguments)
    (h : args.inMemoryData = none) :
    read_legs args Stored.missing = freshResponse ∧
    read_legs args Stored.corrupt = freshResponse ∧
    freshResponse.success = true ∧
    freshResponse.steps = [] ∧
    freshResponse.totalSteps = 0 := by
  refine ⟨?_, ?_, rfl, rfl, rfl⟩ <;> simp [read_legs, h]

/-- Witness for C5 at concrete arguments. -/
theorem read_legs_missing_or_corrupt_is_fresh_witness :
    read_legs { filterStatus := none, targetPath := none, inMemoryData := none }
        Stored.missing = freshResponse ∧
    read_legs { filterStatus := none, targetPath := none, inMemoryData := none }
        Stored.corrupt = freshResponse ∧
    freshResponse.success = true ∧
    freshResponse.steps = [] ∧
    freshResponse.totalSteps = 0 :=
  read_legs_missing_or_corrupt_is_fresh
    { filterStatus := none, targetPath := none, inMemoryData := none } rfl

/-- C10: calling the write tool with `legNumber` equal to `0` is rejected
exactly like a call with `legNumber` absent: the JavaScript truthiness check
cannot distinguish them, so both produce the identical `success:false`
response naming `legNumber` as required, and the ledger state is untouched. -/
theorem write_legs_zero_legNumber_like_missing (args : WriteLegsArguments)
    (file : Stored (List LegData)) (now : String) :
    write_legs { args with legNumber := some 0 } file now
      = write_legs { args with legNumber := none } file now ∧
    (write_legs { args with legNumber := some 0 } file now).2 = file ∧
    (write_legs { args with legNumber := some 0 } file now).1.success = false ∧
    (write_legs { args with legNumber := some 0 } file now).1.message
      = "Failed to document exploration leg: legNumber parameter is required" := by
  refine ⟨?_, ?_, ?_, ?_⟩ <;>
    simp [write_legs, truthyNum, writeLegsErrorResponse]

/-! ### Claim theorems: path planner -/

/-- The planner's loop predicate agrees with the spec-side membership
predicate. -/
theorem planner_pred_eq (ps : List String) :
    (fun p : String => !(ps.contains p)) = (fun p : String => decide (p ∉ ps)) := by
  funext p
  by_cases h : p ∈ ps <;> simp [h]

/-- `generateNextPath` computes exactly the spec-side canonical next path. -/
theorem generateNextPath_eq_spec (ps : List String) :
    generateNextPath ps = specNextPath ps := by
  unfold generateNextPath specNextPath
  by_cases h0 : ps = []
  · subst h0
    simp
  · by_cases hr : "root" ∈ ps
    · have hlen : ¬ ps.length = 0 := by simpa [List.length_eq_zero] using h0
      have hcond : ¬ (ps = [] ∨ "root" ∉ ps) := by
        push_neg
        exact ⟨h0, hr⟩
      have hcont : (!(ps.contains "root")) = false := by simp [hr]
      rw [if_neg hlen, hcont, if_neg hcond]
      simp only [Bool.false_eq_true, if_false]
      rw [← planner_pred_eq ps, List.headD_eq_head?_getD,
        ← find?_eq_head?_filter, List.find?_append, List.find?_append]
      cases h1 : onePaths.find? (fun p => !(ps.contains p)) with
      | some p => simp
      | none =>
        cases h2 : twoPaths.find? (fun p => !(ps.contains p)) with
        | some p => simp
        | none =>
          cases h3 : threePaths.find? (fun p => !(ps.contains p)) with
          | some p => simp
          | none => simp
    · have hcond : ps = [] ∨ "root" ∉ ps := Or.inr hr
      have hcont : (!(ps.contains "root")) = true := by simp [hr]
      rw [if_pos hcond]
      by_cases hlen : ps.length = 0
      · rw [if_pos hlen]
      · rw [if_neg hlen, hcont, if_pos rfl]

/-- C3: the path planner follows the canonical exploration order: on every
input it agrees with the spec-side definition (root sentinel when the set is
empty or lacks the root; otherwise the first absent candidate in the flat
depth-1, depth-2, depth-3 order; else the fixed fallback `"1-1-1-1"`), and
it produces the spec's listed example values. -/
theorem generateNextPath_canonical_order :
    (∀ ps : List String, generateNextPath ps = specNextPath ps) ∧
    generateNextPath [] = "root" ∧
    generateNextPath ["root"] = "1" ∧
    generateNextPath ("root" :: onePaths) = "1-1" ∧
    generateNextPath (("root" :: onePaths) ++ ["1-1"]) = "1-2" :=
  ⟨generateNextPath_eq_spec, by decide, by decide, by decide, by decide⟩

/-! ### Claim theorems: read-tool analysis fields (C9) -/

/-- Whatever the filter arguments, the array the analysis reads is a
permutation of the original step set (the in-place sort only reorders). -/
theorem allStepsAtAnalysis_perm (fs : FilterStatus) (tp : Option String)
    (allSteps : List MenuStepData) :
    (allStepsAtAnalysis fs tp allSteps).Perm allSteps := by
  unfold allStepsAtAnalysis
  split
  · rename_i h
    obtain ⟨h1, h2⟩ := h
    subst h1
    unfold sortedFiltered statusFiltered pathFiltered
    rw [if_pos rfl, if_neg h2]
    exact List.perm_insertionSort stepLE allSteps
  · exact List.Perm.refl _

/-- `completedPathsOf` respects permutation of the step set. -/
theorem completedPathsOf_perm {l l' : List MenuStepData} (h : l.Perm l') :
    (completedPathsOf l).Perm (completedPathsOf l') :=
  (h.filter _).map _

/-- `find?` is permutation-invariant when at most one element satisfies the
predicate. -/
theorem find?_perm_of_countP_le_one {p : α → Bool} {l l' : List α}
    (h : l.Perm l') (hc : l.countP p ≤ 1) : l.find? p = l'.find? p := by
  have hf : (l.filter p).Perm (l'.filter p) := h.filter p
  rw [find?_eq_head?_filter, find?_eq_head?_filter]
  have hlen : (l.filter p).length ≤ 1 := by
    rw [← List.countP_eq_length_filter]
    exact hc
  cases hfp : l.filter p with
  | nil =>
    rw [hfp] at hf
    rw [hf.symm.eq_nil]
  | cons a t =>
    have ht : t = [] := by
      rw [hfp] at hlen
      simp only [List.length_cons] at hlen
      exact List.length_eq_zero.mp (Nat.le_zero.mp (Nat.lt_succ_iff.mp
        (Nat.lt_of_lt_of_le (Nat.lt_succ_of_le (Nat.le_refl _)) hlen)))
    subst ht
    rw [hfp] at hf
    rw [hf.singleton_eq.symm]

/-- The planner depends only on membership in its input, so it is
permutation-invariant. -/
theorem generateNextPath_perm {l l' : List String} (h : l.Perm l') :
    generateNextPath l = generateNextPath l' := by
  have hmem : ∀ p : String, l.contains p = l'.contains p := by
    intro p
    rw [contains_eq_decide_mem, contains_eq_decide_mem]
    by_cases hp : p ∈ l
    · simp [hp, h.mem_iff.mp hp]
    · have hp' : p ∉ l' := fun c => hp (h.mem_iff.mpr c)
      simp [hp, hp']
  have hpred : (fun p : String => !(l.contains p)) = (fun p => !(l'.contains p)) := by
    funext p
    rw [hmem]
  unfold generateNextPath
  rw [h.length_eq, hpred, hmem]

/-- `nextSuggestedOf` is permutation-invariant provided at most one step is
IN_PROGRESS. -/
theorem nextSuggestedOf_perm {l l' : List MenuStepData} (h : l.Perm l')
    (hc : l.countP (fun st => st.status == StepStatus.IN_PROGRESS) ≤ 1) :
    nextSuggestedOf l = nextSuggestedOf l' := by
  unfold nextSuggestedOf
  rw [find?_perm_of_countP_le_one h hc]
  cases l'.find? (fun st => st.status == StepStatus.IN_PROGRESS) with
  | some st => rfl
  | none => exact generateNextPath_perm (completedPathsOf_perm h)

/-- A minimal COMPLETED step at a given path, for the C9 instances. -/
def c9Step (p : String) : MenuStepData :=
  { menuPath := p
    timestamp := ""
    audioTranscript := ""
    availableOptions := []
    dtmfSent := none
    outcome := ""
    status := StepStatus.COMPLETED }

/-- C9 counterexample: two calls over the same underlying step set (file
order `"2"` then `"1"`, both COMPLETED) that differ only in `filterStatus`
return different `completedPaths`: the unfiltered call's in-place sort
reorders the shared `allSteps` array to `["1", "2"]` before the analysis is
computed, while the filtered call leaves it in file order `["2", "1"]`. -/
theorem read_legs_filter_changes_completedPaths :
    (read_legs { filterStatus := none, targetPath := none, inMemoryData := none }
        (Stored.ok [c9Step "2", c9Step "1"])).completedPaths
      ≠ (read_legs
          { filterStatus := some FilterStatus.COMPLETED
            targetPath := none
            inMemoryData := none }
          (Stored.ok [c9Step "2", c9Step "1"])).completedPaths := by
  decide

/-- C9 (amended): for two calls of the read tool over the same underlying
step set that differ only in `filterStatus`/`targetPath`, the
`completedPaths` fields agree as multisets (they list the same paths but the
call with no effective filter returns them sorted, the others in stored
order), and the `nextSuggestedPath` fields are identical whenever at most
one step of the set is IN_PROGRESS. -/
theorem read_legs_analysis_depends_only_on_step_set
    (steps : List MenuStepData) (f1 f2 : Option FilterStatus) (t1 t2 : Option String) :
    (∃ c1 c2,
      (read_legs { filterStatus := f1, targetPath := t1, inMemoryData := none }
          (Stored.ok steps)).completedPaths = some c1 ∧
      (read_legs { filterStatus := f2, targetPath := t2, inMemoryData := none }
          (Stored.ok steps)).completedPaths = some c2 ∧
      c1.Perm c2) ∧
    (steps.countP (fun st => st.status == StepStatus.IN_PROGRESS) ≤ 1 →
      (read_legs { filterStatus := f1, targetPath := t1, inMemoryData := none }
          (Stored.ok steps)).nextSuggestedPath
        = (read_legs { filterStatus := f2, targetPath := t2, inMemoryData := none }
            (Stored.ok steps)).nextSuggestedPath) := by
  have h1 := allStepsAtAnalysis_perm (f1.getD FilterStatus.ALL) t1 steps
  have h2 := allStepsAtAnalysis_perm (f2.getD FilterStatus.ALL) t2 steps
  constructor
  · refine ⟨_, _, rfl, rfl, ?_⟩
    exact (completedPathsOf_perm h1).trans (completedPathsOf_perm h2.symm)
  · intro hc
    show some (nextSuggestedOf _) = some (nextSuggestedOf _)
    have hc1 : (allStepsAtAnalysis (f1.getD FilterStatus.ALL) t1 steps).countP
        (fun st => st.status == StepStatus.IN_PROGRESS) ≤ 1 := by
      rw [h1.countP_eq]
      exact hc
    have e1 := nextSuggestedOf_perm h1 hc1
    have e2 := nextSuggestedOf_perm h2 (by rw [h2.countP_eq]; exact hc)
    rw [e1, e2]

/-- Witness for C9 (amended) at a concrete step set with no IN_PROGRESS
entry: the two calls' `nextSuggestedPath` agree. -/
theorem read_legs_analysis_depends_only_on_step_set_witness :
    (read_legs { filterStatus := none, targetPath := none, inMemoryData := none }
        (Stored.ok [c9Step "2", c9Step "1"])).nextSuggestedPath
      = (read_legs
          { filterStatus := some FilterStatus.COMPLETED
            targetPath := none
            inMemoryData := none }
          (Stored.ok [c9Step "2", c9Step "1"])).nextSuggestedPath :=
  (read_legs_analysis_depends_only_on_step_set [c9Step "2", c9Step "1"] none
    (some FilterStatus.COMPLETED) none none).2 (by decide)

/-! ### Claim theorems: ledger upsert idempotence (C4) -/

/-- `findIndex` returns `none` exactly when no element satisfies the
predicate. -/
theorem findIndex_eq_none_iff (p : α → Bool) (l : List α) :
    findIndex p l = none ↔ ∀ x ∈ l, ¬ p x := by
  induction l with
  | nil => simp [findIndex]
  | cons a t ih =>
    by_cases h : p a <;> simp [findIndex, h, ih]

/-- Replacing the element at the first predicate match by a matching element
makes that element the head of the filtered list. -/
theorem filter_set_findIndex (p : α → Bool) :
    ∀ (l : List α) (i : Nat) (e : α), findIndex p l = some i → p e = true →
      ∃ t, (l.set i e).filter p = e :: t := by
  intro l
  induction l with
  | nil => intro i e h _; simp [findIndex] at h
  | cons a tl ih =>
    intro i e h hpe
    by_cases hpa : p a
    · have hi : i = 0 := by
        simp [findIndex, hpa] at h
        omega
      subst hi
      refine ⟨tl.filter p, ?_⟩
      simp [List.filter_cons, hpe]
    · simp only [findIndex, if_neg hpa] at h
      obtain ⟨j, hj, hij⟩ := Option.map_eq_some.mp h
      subst hij
      obtain ⟨t, ht⟩ := ih j e hj hpe
      refine ⟨t, ?_⟩
      simpa [List.set_cons_succ, List.filter_cons, hpa] using ht

/-- If the head of the filtered list is `e`, then writing `e` back at the
first predicate match leaves the list unchanged. -/
theorem set_findIndex_filter_head (p : α → Bool) :
    ∀ (l : List α) (j : Nat) (e : α), findIndex p l = some j →
      (l.filter p).head? = some e → l.set j e = l := by
  intro l
  induction l with
  | nil => intro j e h _; simp [findIndex] at h
  | cons a tl ih =>
    intro j e h hhead
    by_cases hpa : p a
    · have hj : j = 0 := by
        simp [findIndex, hpa] at h
        omega
      subst hj
      have hae : a = e := by
        rw [List.filter_cons_of_pos hpa] at hhead
        simpa using hhead
      subst hae
      rfl
    · simp only [findIndex, if_neg hpa] at h
      obtain ⟨j', hj', hjj⟩ := Option.map_eq_some.mp h
      subst hjj
      rw [List.filter_cons_of_neg hpa] at hhead
      rw [List.set_cons_succ, ih j' e hj' hhead]

/-- A list containing a predicate match has a first match index. -/
theorem findIndex_isSome_of_mem (p : α → Bool) {l : List α} {e : α}
    (hmem : e ∈ l) (hpe : p e = true) : ∃ j, findIndex p l = some j := by
  induction l with
  | nil => cases hmem
  | cons a t ih =>
    by_cases hpa : p a
    · exact ⟨0, by simp [findIndex, hpa]⟩
    · have he : e ∈ t := by
        cases hmem with
        | head => exact absurd hpe (by simpa using hpa)
        | tail _ h => exact h
      obtain ⟨j, hj⟩ := ih he
      exact ⟨j + 1, by simp [findIndex, hpa, hj]⟩

/-- All entries sharing one `legNumber` are pairwise `legLE`. -/
theorem filterKey_pairwise (l : List LegData) (e : LegData) :
    (l.filter (fun x => x.legNumber == e.legNumber)).Pairwise legLE := by
  apply List.pairwise_of_forall_mem_list
  intro a ha b hb
  have h1 : a.legNumber = e.legNumber := by
    simpa using (List.mem_filter.mp ha).2
  have h2 : b.legNumber = e.legNumber := by
    simpa using (List.mem_filter.mp hb).2
  unfold legLE
  rw [h1, h2]

/-- Each `upsertLeg` branch stable-sorts a list in which the upserted entry
is the first (and, before it, only) entry with its `legNumber`. -/
theorem upsertLeg_eq_insertionSort (l : List LegData) (e : LegData) :
    ∃ M : List LegData, upsertLeg l e = M.insertionSort legLE ∧
      ∃ t, M.filter (fun x => x.legNumber == e.legNumber) = e :: t := by
  unfold upsertLeg
  cases hfi : findIndex (fun leg => leg.legNumber == e.legNumber) l with
  | some i =>
    exact ⟨l.set i e, rfl, filter_set_findIndex _ l i e hfi (by simp)⟩
  | none =>
    refine ⟨l ++ [e], rfl, [], ?_⟩
    rw [List.filter_append]
    have hnil : l.filter (fun x => x.legNumber == e.legNumber) = [] :=
      List.filter_eq_nil_iff.mpr ((findIndex_eq_none_iff _ l).mp hfi)
    rw [hnil]
    simp

/-- Stability of the sort: filtering one `legNumber` out of the sorted list
returns exactly the filtered input, in input order. -/
theorem filter_insertionSort_key (M : List LegData) (e : LegData) :
    (M.insertionSort legLE).filter (fun x => x.legNumber == e.legNumber)
      = M.filter (fun x => x.legNumber == e.legNumber) := by
  have hsub : List.Sublist (M.filter (fun x => x.legNumber == e.legNumber))
      (M.insertionSort legLE) :=
    List.sublist_insertionSort (filterKey_pairwise M e) (List.filter_sublist M)
  have hperm : ((M.insertionSort legLE).filter (fun x => x.legNumber == e.legNumber)).Perm
      (M.filter (fun x => x.legNumber == e.legNumber)) :=
    (List.perm_insertionSort legLE M).filter _
  have hself : (M.filter (fun x => x.legNumber == e.legNumber)).filter
      (fun x => x.legNumber == e.legNumber)
      = M.filter (fun x => x.legNumber == e.legNumber) :=
    List.filter_eq_self.mpr (fun a ha => (List.mem_filter.mp ha).2)
  have hsub2 : List.Sublist (M.filter (fun x => x.legNumber == e.legNumber))
      ((M.insertionSort legLE).filter (fun x => x.legNumber == e.legNumber)) := by
    have h := hsub.filter (fun x => x.legNumber == e.legNumber)
    rwa [hself] at h
  exact (hsub2.eq_of_length hperm.length_eq.symm).symm

/-- Upserting the same entry twice is the same as upserting it once. -/
theorem upsertLeg_idem (l : List LegData) (e : LegData) :
    upsertLeg (upsertLeg l e) e = upsertLeg l e := by
  obtain ⟨M, hM, t, ht⟩ := upsertLeg_eq_insertionSort l e
  have hfR : (M.insertionSort legLE).filter (fun x => x.legNumber == e.legNumber)
      = e :: t := by
    rw [filter_insertionSort_key M e, ht]
  have hhead : ((M.insertionSort legLE).filter
      (fun x => x.legNumber == e.legNumber)).head? = some e := by
    rw [hfR]
    rfl
  have heR : e ∈ M.insertionSort legLE := by
    have hmem : e ∈ (M.insertionSort legLE).filter (fun x => x.legNumber == e.legNumber) := by
      rw [hfR]
      exact List.mem_cons_self e t
    exact (List.mem_filter.mp hmem).1
  obtain ⟨j, hj⟩ :=
    findIndex_isSome_of_mem (fun x => x.legNumber == e.legNumber) heR (by simp)
  have hset : (M.insertionSort legLE).set j e = M.insertionSort legLE :=
    set_findIndex_filter_head _ _ j e hj hhead
  have hsorted : List.Sorted legLE (M.insertionSort legLE) :=
    List.sorted_insertionSort legLE M
  rw [hM]
  unfold upsertLeg
  rw [hj]
  show ((M.insertionSort legLE).set j e).insertionSort legLE = M.insertionSort legLE
  rw [hset]
  exact hsorted.insertionSort_eq

/-- Calling the write tool twice with the same arguments and timestamp
leaves the persisted ledger exactly as after the first call. -/
theorem write_legs_state_idem (args : WriteLegsArguments)
    (file : Stored (List LegData)) (now : String) :
    (write_legs args (write_legs args file now).2 now).2
      = (write_legs args file now).2 := by
  by_cases h1 : truthyNum args.legNumber
  · by_cases h2 : truthyStr args.path
    · by_cases h3 : args.menuSequence.isNone
      · simp [write_legs, h1, h2, h3]
      · by_cases h4 : truthyStr args.finalOutcome
        · by_cases h5 : args.status.isNone
          · simp [write_legs, h1, h2, h3, h4, h5]
          · simp [write_legs, h1, h2, h3, h4, h5, upsertLeg_idem]
        · simp [write_legs, h1, h2, h3, h4]
    · simp [write_legs, h1, h2]
  · simp [write_legs, h1]

/-- C4: ledger upsert is idempotent: upserting an entry with the same
`legNumber` and identical payload twice leaves the persisted array exactly
as after one upsert, entry for entry and in the same order — both at the
level of the upsert-and-resort core and across two full write-tool calls. -/
theorem upsert_idempotent :
    (∀ (existingData : List LegData) (legData : LegData),
      upsertLeg (upsertLeg existingData legData) legData
        = upsertLeg existingData legData) ∧
    (∀ (args : WriteLegsArguments) (file : Stored (List LegData)) (now : String),
      (write_legs args (write_legs args file now).2 now).2
        = (write_legs args file now).2) :=
  ⟨upsertLeg_idem, write_legs_state_idem⟩
